import Mathlib

/-!
Shallow embedding of the HMS front-end utility layer (`CookieManager`,
`AjaxHandler`, `LoadingManager`, `FormUtils`, `StateManager`) and of the
landing-page header controller (`landing_header.js`), together with proofs
of the specification's claims about them.

JavaScript strings in the cookie layer are embedded as `List Char` so that
the character-level operations of `getCookie` (split on ';', strip leading
spaces, prefix test, substring) can be reasoned about directly.  JavaScript
objects are embedded as association lists where assignment updates the
first matching key in place or appends a fresh key at the end, mirroring
property-insertion order.  JavaScript truthiness of a string is emptiness;
of an absent (`undefined`/`null`) value it is falsity; arrays are always
truthy.
-/

namespace HMS

/-! ## JavaScript objects as association lists -/

/-- JS property write: update the first entry with the given key in place,
or append the key at the end (property-insertion order). -/
def objSet {κ α : Type} [DecidableEq κ] : List (κ × α) → κ → α → List (κ × α)
  | [], k, v => [(k, v)]
  | (k', v') :: rest, k, v =>
      if k' = k then (k, v) :: rest else (k', v') :: objSet rest k v

/-- JS property read: value at the first entry with the given key. -/
def objLookup {κ α : Type} [DecidableEq κ] : List (κ × α) → κ → Option α
  | [], _ => none
  | (k', v') :: rest, k => if k' = k then some v' else objLookup rest k

/-- JS property delete: remove the first entry with the given key. -/
def objDelete {κ α : Type} [DecidableEq κ] : List (κ × α) → κ → List (κ × α)
  | [], _ => []
  | (k', v') :: rest, k => if k' = k then rest else (k', v') :: objDelete rest k

/-- Object spread `{...a, ...b}`: start from `a`, then write every entry of
`b` in order, so entries of `b` override those of `a`. -/
def objMerge {κ α : Type} [DecidableEq κ] (a b : List (κ × α)) : List (κ × α) :=
  b.foldl (fun m p => objSet m p.1 p.2) a

/-! ## JSON values, restricted to the shapes the error handler inspects -/

/-- A parsed JSON body: either a string or an object whose fields carry
string values (the only shapes `AjaxHandler.handleError` inspects). -/
inductive JsonVal : Type where
  | jstr (s : String)
  | jobj (fields : List (String × String))
deriving DecidableEq, Repr

/-- Reading `.detail` off a parsed body (`undefined` on a string body). -/
def JsonVal.detailField : JsonVal → Option String
  | .jstr _ => none
  | .jobj fields => objLookup fields "detail"

/-- Reading `.error` off a parsed body (`undefined` on a string body). -/
def JsonVal.errorField : JsonVal → Option String
  | .jstr _ => none
  | .jobj fields => objLookup fields "error"

/-- JS truthiness of a possibly-absent string: present and nonempty. -/
def truthyOpt : Option String → Bool
  | some s => s ≠ ""
  | none => false

/-! ## AjaxHandler.handleError -/

/-- A jQuery AJAX error object, with the four fields `handleError` reads.
`responseJSON` is the body as already parsed by jQuery when parseable;
`status` is `0` for network failures. -/
structure AjaxError : Type where
  responseJSON : Option JsonVal
  responseText : Option String
  statusText : Option String
  status : Nat
deriving DecidableEq, Repr

/-- `error.responseJSON && error.responseJSON.detail`: the `detail` field of
the pre-parsed body, when that body is present. -/
def respJSONDetail (e : AjaxError) : Option String :=
  match e.responseJSON with
  | some j => j.detailField
  | none => none

/-- The message computed by the fallback chain of `handleError`
(`part_000` lines 162-198), before the status-code switch.  `parse` stands
for `JSON.parse`, with `none` meaning the parse throws. -/
def handleErrorMessage (parse : String → Option JsonVal) (e : AjaxError) : String :=
  let message := "An unexpected error occurred"
  if truthyOpt (respJSONDetail e) then
    (respJSONDetail e).getD ""
  else if truthyOpt e.responseText then
    match parse (e.responseText.getD "") with
    | some response =>
        if truthyOpt response.detailField then response.detailField.getD ""
        else message
    | none =>
        let message := "An unexpected error occurred"
        let message :=
          if truthyOpt e.responseText then
            match parse (e.responseText.getD "") with
            | some response =>
                if truthyOpt response.detailField then response.detailField.getD ""
                else if truthyOpt response.errorField then response.errorField.getD ""
                else
                  match response with
                  | .jstr s => s
                  | .jobj fields =>
                      let joined := String.intercalate ", " (fields.map Prod.snd)
                      if joined ≠ "" then joined else message
            | none =>
                if truthyOpt e.statusText then e.statusText.getD "" else message
          else message
        if truthyOpt e.statusText then e.statusText.getD "" else message
  else if truthyOpt e.statusText then
    e.statusText.getD ""
  else message

/-- The `switch (error.status)` of `handleError` (lines 201-216): four
status codes replace the message with a fixed user-facing string. -/
def statusOverride (status : Nat) (message : String) : String :=
  if status = 401 then "Unauthorized access. Please log in."
  else if status = 403 then "Access forbidden. You do not have permission to perform this action."
  else if status = 404 then "Resource not found."
  else if status = 500 then "Internal server error. Please try again later."
  else message

/-- The normalized failure record returned by `handleError`. -/
structure ErrorRecord : Type where
  success : Bool
  error : String
  status : Nat
deriving DecidableEq, Repr

/-- `AjaxHandler.handleError` (lines 161-223). -/
def handleError (parse : String → Option JsonVal) (e : AjaxError) : ErrorRecord :=
  { success := false
    error := statusOverride e.status (handleErrorMessage parse e)
    status := e.status }

/-- The single fallback chain as the spec words it: parse the body as JSON,
take its `detail` field, else its `error` field, else fall back to the HTTP
status text, else the generic message. -/
def specChainMessage (parse : String → Option JsonVal) (e : AjaxError) : String :=
  let parsed : Option JsonVal :=
    match e.responseJSON with
    | some j => some j
    | none =>
        match e.responseText with
        | some t => if t ≠ "" then parse t else none
        | none => none
  match parsed with
  | some j =>
      if truthyOpt j.detailField then j.detailField.getD ""
      else if truthyOpt j.errorField then j.errorField.getD ""
      else if truthyOpt e.statusText then e.statusText.getD ""
      else "An unexpected error occurred"
  | none =>
      if truthyOpt e.statusText then e.statusText.getD ""
      else "An unexpected error occurred"

/-- What the live code paths of `handleErrorMessage` actually compute, with
the nested re-parsing branch removed: `responseJSON.detail`, else the parsed
`responseText`'s `detail` (generic message when the parse succeeds without a
truthy `detail`), else status text on parse failure, else status text, else
the generic message. -/
def singlePassMessage (parse : String → Option JsonVal) (e : AjaxError) : String :=
  if truthyOpt (respJSONDetail e) then
    (respJSONDetail e).getD ""
  else if truthyOpt e.responseText then
    match parse (e.responseText.getD "") with
    | some response =>
        if truthyOpt response.detailField then response.detailField.getD ""
        else "An unexpected error occurred"
    | none =>
        if truthyOpt e.statusText then e.statusText.getD ""
        else "An unexpected error occurred"
  else if truthyOpt e.statusText then
    e.statusText.getD ""
  else "An unexpected error occurred"

/-! ## AjaxHandler.request: the retry loop -/

/-- The outcome of one `$.ajax` call: a decoded JSON payload, or a thrown
jQuery error object. -/
inductive AttemptOutcome : Type where
  | success (data : JsonVal)
  | failure (e : AjaxError)
deriving DecidableEq, Repr

/-- The record returned on success: `{ success: true, data: response }`. -/
structure SuccessRecord : Type where
  success : Bool
  data : JsonVal
deriving DecidableEq, Repr

/-- What `AjaxHandler.request` resolves to. -/
inductive RequestResult : Type where
  | ok (r : SuccessRecord)
  | err (r : ErrorRecord)
deriving DecidableEq, Repr

/-- The observable trace of one `request` call: its resolved value, the
number of `$.ajax` attempts actually issued, and the list of waits (in ms)
performed between attempts, in order. -/
structure RequestTrace : Type where
  result : RequestResult
  attempts : Nat
  delays : List Nat
deriving DecidableEq, Repr

/-- The `while (attempt <= retries)` loop of `AjaxHandler.request`
(lines 112-153).  `net i` is the outcome of the `i`-th `$.ajax` call
(0-indexed); `remaining = retries - attempt` counts the retries still
allowed.  On failure with retries left the code waits `retryDelay` and
loops; with none left it returns `handleError` of the last error. -/
def requestGo (parse : String → Option JsonVal) (net : Nat → AttemptOutcome)
    (retryDelay : Nat) : Nat → Nat → RequestTrace
  | attempt, 0 =>
      match net attempt with
      | .success d => ⟨.ok ⟨true, d⟩, 1, []⟩
      | .failure e => ⟨.err (handleError parse e), 1, []⟩
  | attempt, r + 1 =>
      match net attempt with
      | .success d => ⟨.ok ⟨true, d⟩, 1, []⟩
      | .failure _ =>
          let t := requestGo parse net retryDelay (attempt + 1) r
          ⟨t.result, t.attempts + 1, retryDelay :: t.delays⟩

/-- `AjaxHandler.request` with a given `retries`/`retryDelay` option pair
(the constructor defaults are 3 and 1000): run the loop from attempt 0. -/
def request (parse : String → Option JsonVal) (net : Nat → AttemptOutcome)
    (retries retryDelay : Nat) : RequestTrace :=
  requestGo parse net retryDelay 0 retries

/-! ## CookieManager and the browser cookie jar

JS strings are `List Char` here; `Str` abbreviates that. -/

abbrev Str := List Char

/-- JS `String.prototype.split(';')`. -/
def splitOnSemi : Str → List Str
  | [] => [[]]
  | c :: rest =>
      if c = ';' then [] :: splitOnSemi rest
      else
        match splitOnSemi rest with
        | [] => [[c]]
        | s :: ss => (c :: s) :: ss

/-- `while (c.charAt(0) === ' ') c = c.substring(1)`. -/
def stripSpaces (s : Str) : Str := s.dropWhile (· = ' ')

/-- The loop body of `CookieManager.getCookie` over the split cookie
string: first segment that, after space-stripping, starts with `name=`. -/
def getCookieLoop (nameEQ : Str) : List Str → Option Str
  | [] => none
  | c :: rest =>
      let c' := stripSpaces c
      if nameEQ.isPrefixOf c' then some (c'.drop nameEQ.length)
      else getCookieLoop nameEQ rest

/-- `CookieManager.getCookie` (lines 40-49), reading a `document.cookie`
string. -/
def getCookie (docCookie : Str) (name : Str) : Option Str :=
  getCookieLoop (name ++ ['=']) (splitOnSemi docCookie)

/-- The browser cookie jar: name/value pairs in insertion order. -/
abbrev CookieStore := List (Str × Str)

/-- Modelled browser `document.cookie` assignment: the text before the
first ';' is taken as `name=value` (split at the first '='), and that
cookie is updated in place or appended; a write without '=' is ignored. -/
def cookieAssign (store : CookieStore) (s : Str) : CookieStore :=
  let pair := s.takeWhile (· ≠ ';')
  let name := pair.takeWhile (· ≠ '=')
  match pair.drop name.length with
  | [] => store
  | _ :: value => objSet store name value

/-- Modelled browser render of `document.cookie` for reading: cookies
joined by "; ". -/
def renderStore : CookieStore → Str
  | [] => []
  | [(n, v)] => n ++ '=' :: v
  | (n, v) :: p :: rest => n ++ '=' :: v ++ ';' :: ' ' :: renderStore (p :: rest)

/-- `CookieManager.setCookie` (lines 25-33) applied to the modelled jar:
writes `name + "=" + (value || "") + expires + "; path=/"`, where
`dateStr` stands for `date.toUTCString()` of the computed expiry. -/
def setCookie (store : CookieStore) (name value : Str) (days : Nat) (dateStr : Str) :
    CookieStore :=
  let expires := if days ≠ 0 then ("; expires=".toList ++ dateStr) else []
  cookieAssign store (name ++ '=' :: value ++ expires ++ "; path=/".toList)

/-! ## Request headers built by AjaxHandler.request (lines 97-110) -/

/-- `CONFIG.HEADERS`. -/
def CONFIG_HEADERS : List (String × String) :=
  [("Content-Type", "application/json"), ("Accept", "application/json")]

/-- `CONFIG.AUTH_TOKEN_KEY`. -/
def AUTH_TOKEN_KEY : String := "hms_auth_token"

/-- The header object `request` sends: `{...CONFIG.HEADERS, ...headers}`,
then `Authorization: Bearer <token>` when the auth-token cookie is truthy,
then `X-CSRFToken` when the `csrftoken` cookie is truthy. -/
def buildRequestHeaders (docCookie : Str) (headers : List (String × String)) :
    List (String × String) :=
  let d := objMerge CONFIG_HEADERS headers
  let d :=
    match getCookie docCookie AUTH_TOKEN_KEY.toList with
    | some token =>
        if token ≠ [] then objSet d "Authorization" ("Bearer " ++ String.mk token) else d
    | none => d
  match getCookie docCookie "csrftoken".toList with
  | some csrf => if csrf ≠ [] then objSet d "X-CSRFToken" (String.mk csrf) else d
  | none => d

/-! ## FormUtils.serializeForm (lines 499-516) -/

/-- A value in the serialized form object: a plain string or an array. -/
inductive FormValue : Type where
  | single (v : String)
  | multi (vs : List String)
deriving DecidableEq, Repr

/-- JS truthiness of a stored form value: `""` is falsy, arrays are truthy. -/
def FormValue.truthy : FormValue → Bool
  | .single v => v ≠ ""
  | .multi _ => true

/-- One iteration of the `for (const [key, value] of formData.entries())`
loop: `if (jsonData[key]) { push or pair-up } else { jsonData[key] = value }`. -/
def addEntry (m : List (String × FormValue)) (k v : String) : List (String × FormValue) :=
  match objLookup m k with
  | some fv =>
      if fv.truthy then
        match fv with
        | .single v0 => objSet m k (.multi [v0, v])
        | .multi vs => objSet m k (.multi (vs ++ [v]))
      else objSet m k (.single v)
  | none => objSet m k (.single v)

/-- `FormUtils.serializeForm`, taking the form's `FormData` entries (name,
value) in document order. -/
def serializeForm (entries : List (String × String)) : List (String × FormValue) :=
  entries.foldl (fun m p => addEntry m p.1 p.2) []

/-- The values carried by the entries named `k`, in document order. -/
def valuesOf (k : String) : List (String × String) → List String
  | [] => []
  | (k', v) :: rest => if k' = k then v :: valuesOf k rest else valuesOf k rest

/-- How the serialized value at one key evolves as that key's entries are
folded in (the single-key shadow of `addEntry`). -/
def addValue : Option FormValue → String → FormValue
  | some fv, v =>
      if fv.truthy then
        match fv with
        | .single v0 => .multi [v0, v]
        | .multi vs => .multi (vs ++ [v])
      else .single v
  | none, v => .single v

/-! ## StateManager (lines 847-925)

Callbacks are identified by numeric ids; invoking a callback is recorded
as an event `(id, value)`, with `none` standing for `undefined`. -/

/-- The state manager: the `state` object and the `listeners` object. -/
structure StateManager (V : Type) : Type where
  state : List (String × V)
  listeners : List (String × List Nat)

/-- `StateManager.publish` (lines 920-924): invoke each of `key`'s current
listeners, in order, with `value`.  Returns the invocation events. -/
def StateManager.publish {V : Type} (sm : StateManager V) (key : String)
    (value : Option V) : List (Nat × Option V) :=
  match objLookup sm.listeners key with
  | some cbs => cbs.map (fun cb => (cb, value))
  | none => []

/-- `StateManager.store` (lines 858-861): write the key, then publish the
new value. -/
def StateManager.store {V : Type} (sm : StateManager V) (key : String) (value : V) :
    StateManager V × List (Nat × Option V) :=
  let sm' := { sm with state := objSet sm.state key value }
  (sm', sm'.publish key (some value))

/-- `StateManager.remove` (lines 876-879): delete the key, then publish
`undefined`. -/
def StateManager.remove {V : Type} (sm : StateManager V) (key : String) :
    StateManager V × List (Nat × Option V) :=
  let sm' := { sm with state := objDelete sm.state key }
  (sm', sm'.publish key none)

/-- The `for (const key in this.listeners)` loop of `clear`: publish
`undefined` for each key of the listeners object, tagging each event with
the key being published. -/
def clearLoop {V : Type} (full : List (String × List Nat)) :
    List (String × List Nat) → List (String × Nat × Option V)
  | [] => []
  | (k, _) :: rest =>
      ((StateManager.publish ⟨[], full⟩ k (none : Option V)).map (fun ev => (k, ev))) ++
        clearLoop full rest

/-- `StateManager.clear` (lines 884-890): reset the state object, then
notify every listener key with `undefined`. -/
def StateManager.clear {V : Type} (sm : StateManager V) :
    StateManager V × List (String × Nat × Option V) :=
  let sm' : StateManager V := { sm with state := [] }
  (sm', clearLoop sm'.listeners sm'.listeners)

/-- `StateManager.subscribe` (lines 897-902): ensure the key's listener
array exists, then push the callback. -/
def StateManager.subscribe {V : Type} (sm : StateManager V) (key : String) (cb : Nat) :
    StateManager V :=
  let cbs := (objLookup sm.listeners key).getD []
  { sm with listeners := objSet sm.listeners key (cbs ++ [cb]) }

/-- `StateManager.unsubscribe` (lines 909-913): filter out every occurrence
of the callback from the key's listener array, when that array exists. -/
def StateManager.unsubscribe {V : Type} (sm : StateManager V) (key : String) (cb : Nat) :
    StateManager V :=
  match objLookup sm.listeners key with
  | some cbs => { sm with listeners := objSet sm.listeners key (cbs.filter (· ≠ cb)) }
  | none => sm

/-! ## LoadingManager, 'page' target (lines 417-487) -/

/-- The page-level DOM state the 'page' branch touches: how many
`#loading-overlay` elements exist and how many spin-keyframe `<style>`
elements have been appended. -/
structure PageDom : Type where
  overlays : Nat
  styles : Nat
deriving DecidableEq, Repr

/-- `LoadingManager.showLoading('page')`: if no `#loading-overlay` element
exists, append one (with its spinner) and append the keyframe style. -/
def showLoadingPage (d : PageDom) : PageDom :=
  if d.overlays = 0 then { overlays := d.overlays + 1, styles := d.styles + 1 } else d

/-- `LoadingManager.hideLoading('page')`: remove the `#loading-overlay`
element if one exists. -/
def hideLoadingPage (d : PageDom) : PageDom :=
  if d.overlays ≠ 0 then { d with overlays := d.overlays - 1 } else d

/-! ## LandingHeader success/error handlers (landing_header.js 107-153) -/

/-- A browser-visible effect of a header callback: a `window.location.href`
assignment, a console message, or a user-facing notification.  (The code
never notifies; the constructor is present so the absence is statable.) -/
inductive HeaderEffect : Type where
  | redirect (url : String)
  | consoleError (msg : String)
  | consoleLog (msg : String)
  | notify (msg : String)
deriving DecidableEq, Repr

/-- The auth-action response body: `redirect_url` when the server sent one.
A `none` response models a falsy (`null`/`undefined`) body. -/
structure AuthResponse : Type where
  redirect_url : Option String
deriving DecidableEq, Repr

/-- `response && response.redirect_url` truthiness. -/
def responseRedirect (response : Option AuthResponse) : Option String :=
  match response with
  | some r =>
      match r.redirect_url with
      | some u => if u ≠ "" then some u else none
      | none => none
  | none => none

/-- `LandingHeader.handleLoginSuccess` (lines 107-115). -/
def handleLoginSuccess (response : Option AuthResponse) : List HeaderEffect :=
  match responseRedirect response with
  | some u => [.redirect u]
  | none => [.consoleLog "Login action successful", .redirect "/auth/login"]

/-- `LandingHeader.handleLoginError` (lines 123-127). -/
def handleLoginError (textStatus errorThrown : String) : List HeaderEffect :=
  [.consoleError ("Login request failed: " ++ textStatus ++ " " ++ errorThrown),
   .redirect "/auth/login"]

/-- `LandingHeader.handleSignupSuccess` (lines 133-141). -/
def handleSignupSuccess (response : Option AuthResponse) : List HeaderEffect :=
  match responseRedirect response with
  | some u => [.redirect u]
  | none => [.consoleLog "Signup action successful", .redirect "/auth/register"]

/-- `LandingHeader.handleSignupError` (lines 149-153). -/
def handleSignupError (textStatus errorThrown : String) : List HeaderEffect :=
  [.consoleError ("Signup request failed: " ++ textStatus ++ " " ++ errorThrown),
   .redirect "/auth/register"]

/-! ## Wellformedness of cookie names and values

The source does no encoding, so round-tripping needs the name/value to be
free of the cookie-string metacharacters. -/

/-- A cookie name that survives the jar unmangled: no ';', no '=', and no
leading space. -/
abbrev goodName (n : Str) : Prop := ';' ∉ n ∧ '=' ∉ n ∧ n.head? ≠ some ' '

/-- A cookie value that survives the jar unmangled: no ';'. -/
abbrev goodVal (v : Str) : Prop := ';' ∉ v

/-- A jar whose entries all survive rendering and re-parsing. -/
abbrev goodStore (st : CookieStore) : Prop := ∀ p ∈ st, goodName p.1 ∧ goodVal p.2

/-! ## Concrete inputs used by witnesses and counterexamples -/

/-- A `JSON.parse` oracle for the body consisting of a JSON object with a
single field `error` holding `"x"`. -/
def exParse : String → Option JsonVal :=
  fun s => if s = "\x7b\"error\":\"x\"\x7d" then some (.jobj [("error", "x")]) else none

/-- An error whose body parses to an object with only an `error` field. -/
def exErrBody : AjaxError :=
  { responseJSON := none, responseText := some "\x7b\"error\":\"x\"\x7d",
    statusText := some "Bad Request", status := 400 }

/-- A bodyless 401 error. -/
def exErr401 : AjaxError :=
  { responseJSON := none, responseText := none, statusText := none, status := 401 }

/-- A network that fails on every attempt. -/
def exNet : Nat → AttemptOutcome := fun _ => .failure exErrBody

/-- A `document.cookie` carrying an auth token and a CSRF token. -/
def exDocCookie : Str := "hms_auth_token=tok; csrftoken=abc".toList

/-- Caller options that try to override the `Authorization` header. -/
def exOpts : List (String × String) := [("Authorization", "Bearer old")]

end HMS

namespace HMS

/-! # Helper lemmas on JS objects -/

theorem objLookup_objSet_self {κ α : Type} [DecidableEq κ] (m : List (κ × α)) (k : κ) (v : α) :
    objLookup (objSet m k v) k = some v := by
  induction m with
  | nil => simp [objSet, objLookup]
  | cons p rest ih =>
      obtain ⟨k', v'⟩ := p
      by_cases h : k' = k <;> simp [objSet, objLookup, h, ih]

theorem objLookup_objSet_ne {κ α : Type} [DecidableEq κ] (m : List (κ × α)) (k' k : κ) (v : α)
    (h : k' ≠ k) : objLookup (objSet m k' v) k = objLookup m k := by
  induction m with
  | nil => simp [objSet, objLookup, h]
  | cons p rest ih =>
      obtain ⟨k₀, v₀⟩ := p
      by_cases h0 : k₀ = k'
      · subst h0; simp [objSet, objLookup, h]
      · simp [objSet, objLookup, h0, ih]

theorem objLookup_eq_none_of_not_mem {κ α : Type} [DecidableEq κ] (m : List (κ × α)) (k : κ)
    (h : k ∉ m.map Prod.fst) : objLookup m k = none := by
  induction m with
  | nil => rfl
  | cons p rest ih =>
      simp only [List.map_cons, List.mem_cons] at h
      push_neg at h
      simpa [objLookup, Ne.symm h.1] using ih h.2

theorem objLookup_mem {κ α : Type} [DecidableEq κ] (m : List (κ × α)) (k : κ) (v : α)
    (h : objLookup m k = some v) : (k, v) ∈ m := by
  induction m with
  | nil => simp [objLookup] at h
  | cons p rest ih =>
      obtain ⟨k₀, v₀⟩ := p
      by_cases h0 : k₀ = k
      · subst h0
        rw [objLookup, if_pos rfl] at h
        obtain rfl : v₀ = v := Option.some.inj h
        exact List.mem_cons_self _ _
      · rw [objLookup, if_neg h0] at h
        exact List.mem_cons_of_mem _ (ih h)

theorem objLookup_of_nodup_mem {κ α : Type} [DecidableEq κ] (m : List (κ × α)) (k : κ) (v : α)
    (hnd : (m.map Prod.fst).Nodup) (h : (k, v) ∈ m) : objLookup m k = some v := by
  induction m with
  | nil => simp at h
  | cons p rest ih =>
      obtain ⟨k₀, v₀⟩ := p
      simp only [List.map_cons, List.nodup_cons] at hnd
      rcases List.mem_cons.mp h with h | h
      · obtain ⟨rfl, rfl⟩ := Prod.mk.injEq .. ▸ h
        simp [objLookup]
      · have hk : k₀ ≠ k := by
          rintro rfl
          exact hnd.1 (List.mem_map.mpr ⟨(k₀, v), h, rfl⟩)
        simp [objLookup, hk, ih hnd.2 h]

/-! # C2: fixed messages for 401/403/404/500 -/

/-- C2: for every error whose status is 401, 403, 404 or 500 and whose
response body is absent or not parseable as JSON, `handleError` returns a
failure record whose message is the fixed user-facing string for that
status code and whose `status` field equals the error's status. -/
theorem handleError_status_mapping (parse : String → Option JsonVal) (e : AjaxError)
    (_hjson : e.responseJSON = none)
    (_htext : ∀ t, e.responseText = some t → parse t = none) :
    (e.status = 401 → (handleError parse e).error = "Unauthorized access. Please log in.") ∧
    (e.status = 403 → (handleError parse e).error =
      "Access forbidden. You do not have permission to perform this action.") ∧
    (e.status = 404 → (handleError parse e).error = "Resource not found.") ∧
    (e.status = 500 → (handleError parse e).error =
      "Internal server error. Please try again later.") ∧
    (handleError parse e).status = e.status := by
  refine ⟨?_, ?_, ?_, ?_, rfl⟩ <;> intro h <;> simp [handleError, statusOverride, h]

theorem handleError_status_mapping_witness :
    (handleError exParse exErr401).error = "Unauthorized access. Please log in." ∧
    (handleError exParse exErr401).status = 401 :=
  ⟨(handleError_status_mapping exParse exErr401 rfl (fun _ h => nomatch h)).1 rfl,
   (handleError_status_mapping exParse exErr401 rfl (fun _ h => nomatch h)).2.2.2.2⟩

/-! # C3: the error-handler fallback chain -/

/-- C3 is false as stated: on a body that parses as JSON but carries only an
`error` field (no `detail`), `handleError` returns the generic message,
while the spec's single fallback chain would return the `error` field.  The
status (400) is outside the specially-mapped set. -/
theorem handleError_not_spec_chain_cex :
    exErrBody.status ∉ ([401, 403, 404, 500] : List Nat) ∧
    (handleError exParse exErrBody).error = "An unexpected error occurred" ∧
    specChainMessage exParse exErrBody = "x" ∧
    (handleError exParse exErrBody).error ≠ specChainMessage exParse exErrBody := by
  refine ⟨by decide, by decide, by decide, by decide⟩

/-- C3 amended: for every error input and every status outside
{401,403,404,500}, the message `handleError` produces equals the single-pass
chain that takes `responseJSON.detail`, else the `detail` field of the
parsed `responseText` — falling back to the generic message (NOT to the
`error` field or status text) when that parse succeeds without a truthy
`detail` — else the status text when the parse fails or the body is absent,
else the generic message.  In particular the duplicated nested parsing
branch is dead code and does not change the result. -/
theorem handleError_singlePass (parse : String → Option JsonVal) (e : AjaxError)
    (hs : e.status ∉ ([401, 403, 404, 500] : List Nat)) :
    (handleError parse e).error = singlePassMessage parse e := by
  simp only [List.mem_cons, List.mem_singleton] at hs
  push_neg at hs
  obtain ⟨h401, h403, h404, h500⟩ := hs
  have hover : statusOverride e.status (handleErrorMessage parse e) =
      handleErrorMessage parse e := by
    simp [statusOverride, h401, h403, h404, h500]
  rw [handleError]
  simp only [hover]
  unfold handleErrorMessage singlePassMessage
  by_cases h1 : truthyOpt (respJSONDetail e)
  · simp [h1]
  · by_cases h2 : truthyOpt e.responseText
    · simp only [h1, h2, Bool.false_eq_true, if_false, if_true]
      cases hp : parse (e.responseText.getD "") with
      | some response => rfl
      | none =>
          by_cases h3 : truthyOpt e.statusText <;> simp [h2, h3, hp]
    · simp [h1, h2]

theorem handleError_singlePass_witness :
    (handleError exParse exErrBody).error = singlePassMessage exParse exErrBody :=
  handleError_singlePass exParse exErrBody (by decide)

/-! # C9: landing-header redirects -/

/-- C9: every failure of the auth-action request makes the login flow
redirect to the fixed '/auth/login' and the signup flow to '/auth/register'
with no user-facing notification; a success without a truthy `redirect_url`
uses the same fixed paths, and a success with one redirects to it. -/
theorem landingHeader_fixed_redirects (ts et : String) (response : Option AuthResponse) :
    (HeaderEffect.redirect "/auth/login" ∈ handleLoginError ts et ∧
      ∀ m, HeaderEffect.notify m ∉ handleLoginError ts et) ∧
    (HeaderEffect.redirect "/auth/register" ∈ handleSignupError ts et ∧
      ∀ m, HeaderEffect.notify m ∉ handleSignupError ts et) ∧
    (responseRedirect response = none →
      HeaderEffect.redirect "/auth/login" ∈ handleLoginSuccess response ∧
      HeaderEffect.redirect "/auth/register" ∈ handleSignupSuccess response) ∧
    (∀ u, responseRedirect response = some u →
      handleLoginSuccess response = [.redirect u] ∧
      handleSignupSuccess response = [.redirect u]) := by
  refine ⟨⟨by simp [handleLoginError], by simp [handleLoginError]⟩,
          ⟨by simp [handleSignupError], by simp [handleSignupError]⟩, ?_, ?_⟩
  · intro h
    constructor <;> simp [handleLoginSuccess, handleSignupSuccess, h]
  · intro u h
    constructor <;> simp [handleLoginSuccess, handleSignupSuccess, h]

theorem landingHeader_fixed_redirects_witness :
    HeaderEffect.redirect "/auth/login" ∈ handleLoginError "timeout" "Timeout" ∧
    handleLoginSuccess (some ⟨some "/dashboard"⟩) = [.redirect "/dashboard"] :=
  ⟨(landingHeader_fixed_redirects "timeout" "Timeout" (some ⟨some "/dashboard"⟩)).1.1,
   ((landingHeader_fixed_redirects "timeout" "Timeout" (some ⟨some "/dashboard"⟩)).2.2.2
      "/dashboard" (by decide)).1⟩

/-! # C8: at most one full-page loading overlay -/

/-- `showLoading('page')` is the identity once an overlay exists. -/
theorem showLoadingPage_fixed (d : PageDom) (h : d.overlays ≠ 0) :
    showLoadingPage d = d := by
  simp [showLoadingPage, h]

/-- C8: showing the full-page overlay is idempotent; from a state with no
overlay, any number `n` of `showLoading('page')` calls leaves at most one
overlay (and creates it exactly `min n 1` times), and a single
`hideLoading('page')` then removes it regardless of how many shows came
before. -/
theorem loading_overlay_unique (d : PageDom) (n : Nat) (h : d.overlays = 0) :
    showLoadingPage (showLoadingPage d) = showLoadingPage d ∧
    ((showLoadingPage^[n]) d).overlays ≤ 1 ∧
    ((showLoadingPage^[n]) d).styles = d.styles + min n 1 ∧
    (hideLoadingPage ((showLoadingPage^[n]) d)).overlays = 0 := by
  have hidem : ∀ e : PageDom, showLoadingPage (showLoadingPage e) = showLoadingPage e := by
    intro e
    by_cases he : e.overlays = 0
    · apply showLoadingPage_fixed
      simp [showLoadingPage, he]
    · rw [showLoadingPage_fixed e he, showLoadingPage_fixed e he]
  refine ⟨hidem d, ?_⟩
  cases n with
  | zero => simp [h, hideLoadingPage]
  | succ m =>
      have hshow : showLoadingPage d = { overlays := 1, styles := d.styles + 1 } := by
        simp [showLoadingPage, h]
      have hfix : (showLoadingPage^[m]) (showLoadingPage d) = showLoadingPage d := by
        apply Function.iterate_fixed
        apply showLoadingPage_fixed
        simp [hshow]
      rw [Function.iterate_succ_apply, hfix, hshow]
      simp [hideLoadingPage]

theorem loading_overlay_unique_witness :
    showLoadingPage (showLoadingPage ⟨0, 4⟩) = showLoadingPage ⟨0, 4⟩ ∧
    ((showLoadingPage^[3]) ⟨0, 4⟩).overlays ≤ 1 ∧
    ((showLoadingPage^[3]) ⟨0, 4⟩).styles = (PageDom.mk 0 4).styles + min 3 1 ∧
    (hideLoadingPage ((showLoadingPage^[3]) ⟨0, 4⟩)).overlays = 0 :=
  loading_overlay_unique ⟨0, 4⟩ 3 rfl

/-! # C1: the retry loop retries exactly `retries` times -/

/-- When every attempt from `attempt` through `attempt + remaining` fails,
the loop issues all `remaining + 1` attempts, waits the fixed delay between
consecutive attempts, and resolves to `handleError` of the last error. -/
theorem requestGo_all_fail (parse : String → Option JsonVal) (net : Nat → AttemptOutcome)
    (rd : Nat) :
    ∀ remaining attempt,
      (∀ i, attempt ≤ i → i ≤ attempt + remaining → ∃ e, net i = .failure e) →
      ∃ e, net (attempt + remaining) = .failure e ∧
        requestGo parse net rd attempt remaining =
          ⟨.err (handleError parse e), remaining + 1, List.replicate remaining rd⟩ := by
  intro remaining
  induction remaining with
  | zero =>
      intro attempt h
      obtain ⟨e, he⟩ := h attempt le_rfl (by omega)
      exact ⟨e, by simpa using he, by simp [requestGo, he]⟩
  | succ r ih =>
      intro attempt h
      obtain ⟨e0, he0⟩ := h attempt le_rfl (by omega)
      obtain ⟨e, he, ht⟩ := ih (attempt + 1) (fun i h1 h2 => h i (by omega) (by omega))
      refine ⟨e, ?_, ?_⟩
      · rw [show attempt + (r + 1) = attempt + 1 + r by omega]
        exact he
      · simp [requestGo, he0, ht, List.replicate_succ]

/-- C1: for every call to `request` in which every attempt fails, the
request is retried exactly `retries` times after the initial attempt
(`retries + 1` attempts in total), with the fixed `retryDelay` wait between
consecutive attempts and no backoff growth, and the call resolves to the
normalized failure record built from the final attempt's error.  The
hypothesis places no constraint on the errors' statuses: every failure is
retried identically regardless of status class. -/
theorem request_retries_exactly (parse : String → Option JsonVal)
    (net : Nat → AttemptOutcome) (retries retryDelay : Nat)
    (hfail : ∀ i, i ≤ retries → ∃ e, net i = .failure e) :
    (request parse net retries retryDelay).attempts = retries + 1 ∧
    (request parse net retries retryDelay).delays = List.replicate retries retryDelay ∧
    ∃ e, net retries = .failure e ∧
      (request parse net retries retryDelay).result = .err (handleError parse e) := by
  obtain ⟨e, he, ht⟩ := requestGo_all_fail parse net retryDelay retries 0
    (fun i _ h2 => hfail i (by omega))
  rw [Nat.zero_add] at he
  refine ⟨?_, ?_, e, he, ?_⟩ <;> simp [request, ht]

theorem request_retries_exactly_witness :
    (request exParse exNet 2 7).attempts = 2 + 1 ∧
    (request exParse exNet 2 7).delays = List.replicate 2 7 ∧
    ∃ e, exNet 2 = .failure e ∧
      (request exParse exNet 2 7).result = .err (handleError exParse e) :=
  request_retries_exactly exParse exNet 2 7 (fun _ _ => ⟨exErrBody, rfl⟩)

/-! # C4: serializeForm collapses repeated names -/

theorem addEntry_lookup_eq (m : List (String × FormValue)) (k v : String) :
    objLookup (addEntry m k v) k = some (addValue (objLookup m k) v) := by
  cases h : objLookup m k with
  | none => simp [addEntry, addValue, h, objLookup_objSet_self]
  | some fv =>
      cases fv with
      | single v0 =>
          by_cases hv : v0 = "" <;>
            simp [addEntry, addValue, FormValue.truthy, h, hv, objLookup_objSet_self]
      | multi vs => simp [addEntry, addValue, FormValue.truthy, h, objLookup_objSet_self]

theorem addEntry_lookup_ne (m : List (String × FormValue)) (k' k v : String)
    (h : k' ≠ k) : objLookup (addEntry m k' v) k = objLookup m k := by
  cases h' : objLookup m k' with
  | none => simp [addEntry, h', objLookup_objSet_ne _ _ _ _ h]
  | some fv =>
      cases fv with
      | single v0 =>
          by_cases hv : v0 = "" <;>
            simp [addEntry, FormValue.truthy, h', hv, objLookup_objSet_ne _ _ _ _ h]
      | multi vs => simp [addEntry, FormValue.truthy, h', objLookup_objSet_ne _ _ _ _ h]

/-- Folding form entries in: the value at key `k` evolves by `addValue`
over exactly the values of the entries named `k`, in document order. -/
theorem serialize_fold_lookup (entries : List (String × String)) :
    ∀ (m : List (String × FormValue)) (k : String),
      objLookup (entries.foldl (fun m p => addEntry m p.1 p.2) m) k =
        (valuesOf k entries).foldl (fun o v => some (addValue o v)) (objLookup m k) := by
  induction entries with
  | nil => intro m k; simp [valuesOf]
  | cons p rest ih =>
      intro m k
      obtain ⟨k', v⟩ := p
      by_cases h : k' = k
      · subst h
        rw [List.foldl_cons, ih, addEntry_lookup_eq]
        simp [valuesOf]
      · rw [List.foldl_cons, ih, addEntry_lookup_ne _ _ _ _ h]
        simp [valuesOf, h]

/-- Once the accumulated value is an array, later values are pushed. -/
theorem foldl_addValue_multi (vs : List String) :
    ∀ l : List String,
      vs.foldl (fun o v => some (addValue o v)) (some (.multi l)) = some (.multi (l ++ vs)) := by
  induction vs with
  | nil => intro l; simp
  | cons v rest ih =>
      intro l
      simp only [List.foldl_cons]
      rw [show addValue (some (.multi l)) v = .multi (l ++ [v]) from rfl, ih]
      simp

/-- C4 amended: a field name occurring exactly twice maps to the array of
both its values in document order, provided the first value is nonempty (a
falsy first value is overwritten instead of collapsed); more generally any
name repeated two or more times with a nonempty first value collapses to
the array of all its values in document order, and a unique name maps to
its single value. -/
theorem serializeForm_collapse (entries : List (String × String)) (k : String) :
    (∀ v, valuesOf k entries = [v] →
      objLookup (serializeForm entries) k = some (.single v)) ∧
    (∀ v₁ v₂ rest, valuesOf k entries = v₁ :: v₂ :: rest → v₁ ≠ "" →
      objLookup (serializeForm entries) k = some (.multi (v₁ :: v₂ :: rest))) := by
  constructor
  · intro v hv
    rw [serializeForm, serialize_fold_lookup, hv]
    simp [objLookup, addValue]
  · intro v₁ v₂ rest hv h1
    rw [serializeForm, serialize_fold_lookup, hv]
    simp only [objLookup, List.foldl_cons]
    have e1 : addValue none v₁ = .single v₁ := rfl
    have e2 : addValue (some (.single v₁)) v₂ = .multi [v₁, v₂] := by
      simp [addValue, FormValue.truthy, h1]
    rw [e1, e2, foldl_addValue_multi]
    simp

theorem serializeForm_collapse_witness :
    objLookup (serializeForm [("a", "1"), ("b", "x"), ("a", "2")]) "a" =
      some (.multi ["1", "2"]) ∧
    objLookup (serializeForm [("a", "1"), ("b", "x"), ("a", "2")]) "b" =
      some (.single "x") :=
  ⟨(serializeForm_collapse [("a", "1"), ("b", "x"), ("a", "2")] "a").2
      "1" "2" [] (by decide) (by decide),
   (serializeForm_collapse [("a", "1"), ("b", "x"), ("a", "2")] "b").1 "x" (by decide)⟩

/-- C4 is false as universally stated: a form with exactly two fields named
"a" whose first value is the empty string serializes that name to the
single second value, not to the array of both values. -/
theorem serializeForm_empty_first_cex :
    valuesOf "a" [("a", ""), ("a", "x")] = ["", "x"] ∧
    objLookup (serializeForm [("a", ""), ("a", "x")]) "a" = some (.single "x") ∧
    some (FormValue.single "x") ≠ some (FormValue.multi ["", "x"]) := by
  refine ⟨by decide, by decide, by decide⟩

/-! # C6: subscribe / store / unsubscribe -/

/-- The invocations of callback `cb` among the events of publishing `x` to
the listener list `L` are exactly the occurrences of `cb` in `L`. -/
theorem publish_events_filter {V : Type} (L : List Nat) (x : Option V) (cb : Nat) :
    ((L.map (fun c => (c, x))).filter (fun ev => ev.1 == cb)) =
      (L.filter (fun c => c == cb)).map (fun c => (c, x)) := by
  induction L with
  | nil => rfl
  | cons c rest ih =>
      by_cases h : c = cb <;> simp [h, ih, List.filter_cons]

/-- C6: on any state manager in which `cb` is not yet registered for key
`k`, `subscribe(k, cb)` followed by `store(k, v)` invokes `cb` exactly once,
with `v`; after a further `unsubscribe(k, cb)`, `store(k, v)` invokes `cb`
zero times. -/
theorem stateManager_subscribe_store {V : Type} (sm : StateManager V) (k : String)
    (v : V) (cb : Nat)
    (hfresh : cb ∉ (objLookup sm.listeners k).getD []) :
    (((sm.subscribe k cb).store k v).2.filter (fun ev => ev.1 == cb)) =
      [(cb, some v)] ∧
    ((((sm.subscribe k cb).unsubscribe k cb).store k v).2.filter
        (fun ev => ev.1 == cb)) = [] := by
  set old := (objLookup sm.listeners k).getD [] with hold
  have hsub : (sm.subscribe k cb).listeners = objSet sm.listeners k (old ++ [cb]) := rfl
  have hlook : objLookup (sm.subscribe k cb).listeners k = some (old ++ [cb]) := by
    rw [hsub, objLookup_objSet_self]
  constructor
  · rw [StateManager.store]
    show ((StateManager.publish _ k (some v)).filter (fun ev => ev.1 == cb)) = _
    rw [StateManager.publish]
    simp only [hlook]
    rw [publish_events_filter]
    have : (old ++ [cb]).filter (fun c => c == cb) = [cb] := by
      rw [List.filter_append]
      have h1 : old.filter (fun c => c == cb) = [] :=
        List.filter_eq_nil_iff.mpr (fun a ha => by
          simp only [beq_iff_eq]
          rintro rfl
          exact hfresh ha)
      simp [h1]
    rw [this]
    rfl
  · have huns : ((sm.subscribe k cb).unsubscribe k cb).listeners =
        objSet (sm.subscribe k cb).listeners k ((old ++ [cb]).filter (· ≠ cb)) := by
      rw [StateManager.unsubscribe, hlook]
    have hfilter : (old ++ [cb]).filter (· ≠ cb) = old := by
      have h1 : old.filter (· ≠ cb) = old :=
        List.filter_eq_self.mpr (fun a ha => by
          simp only [ne_eq, decide_not, Bool.not_eq_true', decide_eq_false_iff_not]
          rintro rfl
          exact hfresh ha)
      have h2 : ([cb] : List Nat).filter (· ≠ cb) = [] := by simp
      rw [List.filter_append, h1, h2, List.append_nil]
    have hlook2 : objLookup ((sm.subscribe k cb).unsubscribe k cb).listeners k = some old := by
      rw [huns, hfilter, objLookup_objSet_self]
    rw [StateManager.store]
    show ((StateManager.publish _ k (some v)).filter (fun ev => ev.1 == cb)) = _
    rw [StateManager.publish]
    simp only [hlook2]
    rw [publish_events_filter]
    have h1 : old.filter (fun c => c == cb) = [] :=
      List.filter_eq_nil_iff.mpr (fun a ha => by
        simp only [beq_iff_eq]
        rintro rfl
        exact hfresh ha)
    rw [h1]
    rfl

theorem stateManager_subscribe_store_witness :
    ((((StateManager.mk (V := Nat) [] []).subscribe "theme" 1).store "theme" 5).2.filter
        (fun ev => ev.1 == 1)) = [(1, some 5)] ∧
    (((((StateManager.mk (V := Nat) [] []).subscribe "theme" 1).unsubscribe "theme" 1).store
        "theme" 5).2.filter (fun ev => ev.1 == 1)) = [] :=
  stateManager_subscribe_store (StateManager.mk [] []) "theme" 5 1 (by simp [objLookup])

/-! # C7: clear and remove notify with undefined -/

theorem tagged_filter_eq {V : Type} (cbs : List Nat) (k : String) (x : Option V) (cb : Nat) :
    ((cbs.map (fun c => (k, c, x))).filter (fun ev => ev.1 == k && ev.2.1 == cb)) =
      (cbs.filter (fun c => c == cb)).map (fun c => (k, c, x)) := by
  induction cbs with
  | nil => rfl
  | cons c rest ih =>
      by_cases h : c = cb <;> simp [h, ih, List.filter_cons]

theorem tagged_filter_ne {V : Type} (cbs : List Nat) (k' k : String) (x : Option V) (cb : Nat)
    (h : k' ≠ k) :
    ((cbs.map (fun c => (k', c, x))).filter (fun ev => ev.1 == k && ev.2.1 == cb)) = [] := by
  refine List.filter_eq_nil_iff.mpr ?_
  rintro a ha
  obtain ⟨c, -, rfl⟩ := List.mem_map.mp ha
  simp [h]

theorem nodup_filter_single (cbs : List Nat) (cb : Nat) (hnd : cbs.Nodup) (hmem : cb ∈ cbs) :
    cbs.filter (fun c => c == cb) = [cb] := by
  induction cbs with
  | nil => simp at hmem
  | cons c rest ih =>
      rw [List.nodup_cons] at hnd
      rcases List.mem_cons.mp hmem with rfl | hmem'
      · have : rest.filter (fun c => c == cb) = [] :=
          List.filter_eq_nil_iff.mpr (fun a ha => by
            simp only [beq_iff_eq]
            rintro rfl
            exact hnd.1 ha)
        simp [List.filter_cons, this]
      · have hne : c ≠ cb := by rintro rfl; exact hnd.1 hmem'
        simp [List.filter_cons, hne, ih hnd.2 hmem']

/-- Keys never iterated contribute no events for key `k`. -/
theorem clearLoop_filter_of_not_mem {V : Type} (full : List (String × List Nat))
    (k : String) (cb : Nat) :
    ∀ l : List (String × List Nat), k ∉ l.map Prod.fst →
      ((clearLoop (V := V) full l).filter (fun ev => ev.1 == k && ev.2.1 == cb)) = [] := by
  intro l
  induction l with
  | nil => intro _; rfl
  | cons p rest ih =>
      intro h
      obtain ⟨k₀, cbs₀⟩ := p
      simp only [List.map_cons, List.mem_cons] at h
      push_neg at h
      rw [clearLoop, List.filter_append, ih h.2, List.append_nil]
      rw [StateManager.publish]
      cases hl : objLookup full k₀ with
      | none => rfl
      | some cbs' =>
          rw [show ((cbs'.map (fun c => (c, (none : Option V)))).map
              (fun ev => (k₀, ev))) = cbs'.map (fun c => (k₀, c, none)) by
            rw [List.map_map]; rfl]
          exact tagged_filter_ne cbs' k₀ k none cb (Ne.symm h.1)

/-- With no duplicate listener keys, iterating the listener object notifies
each registered callback of key `k` exactly once. -/
theorem clearLoop_filter_of_mem {V : Type} (full : List (String × List Nat))
    (k : String) (cbs : List Nat) (cb : Nat) :
    ∀ l : List (String × List Nat), (l.map Prod.fst).Nodup →
      (∀ p ∈ l, objLookup full p.1 = some p.2) →
      (k, cbs) ∈ l → cb ∈ cbs → cbs.Nodup →
      ((clearLoop (V := V) full l).filter (fun ev => ev.1 == k && ev.2.1 == cb)) =
        [(k, cb, none)] := by
  intro l
  induction l with
  | nil => intro _ _ hmem; simp at hmem
  | cons p rest ih =>
      intro hnd hfull hmem hcb hcbs
      obtain ⟨k₀, cbs₀⟩ := p
      simp only [List.map_cons, List.nodup_cons] at hnd
      rw [clearLoop, List.filter_append]
      rcases List.mem_cons.mp hmem with heq | hmem'
      · obtain ⟨rfl, rfl⟩ : k = k₀ ∧ cbs = cbs₀ := by
          have h1 := congrArg Prod.fst heq
          have h2 := congrArg Prod.snd heq
          exact ⟨h1, h2⟩
        have hl : objLookup full k = some cbs := hfull (k, cbs) (List.mem_cons_self _ _)
        rw [StateManager.publish, hl]
        rw [show ((cbs.map (fun c => (c, (none : Option V)))).map
            (fun ev => (k, ev))) = cbs.map (fun c => (k, c, none)) by
          rw [List.map_map]; rfl]
        rw [tagged_filter_eq, nodup_filter_single cbs cb hcbs hcb]
        rw [clearLoop_filter_of_not_mem full k cb rest hnd.1]
        rfl
      · have hkne : k₀ ≠ k := by
          rintro rfl
          exact hnd.1 (List.mem_map.mpr ⟨(k₀, cbs), hmem', rfl⟩)
        have hfirst :
            (((StateManager.publish (V := V) ⟨[], full⟩ k₀ none).map
                (fun ev => (k₀, ev))).filter
              (fun ev => ev.1 == k && ev.2.1 == cb)) = [] := by
          rw [StateManager.publish]
          cases hl : objLookup full k₀ with
          | none => rfl
          | some cbs' =>
              rw [show ((cbs'.map (fun c => (c, (none : Option V)))).map
                  (fun ev => (k₀, ev))) = cbs'.map (fun c => (k₀, c, none)) by
                rw [List.map_map]; rfl]
              exact tagged_filter_ne cbs' k₀ k none cb hkne
        rw [hfirst, List.nil_append]
        exact ih hnd.2 (fun p hp => hfull p (List.mem_cons_of_mem _ hp)) hmem' hcb hcbs

/-- C7: `clear()` empties the state and, when the listener object has no
duplicate keys and a key's subscriber list has no duplicates, notifies each
subscriber of each registered key exactly once with `undefined`; `remove(k)`
notifies exactly `k`'s subscribers, in order, with `undefined`. -/
theorem stateManager_clear_remove {V : Type} (sm : StateManager V)
    (hkeys : (sm.listeners.map Prod.fst).Nodup) :
    (sm.clear).1.state = [] ∧
    (∀ k cbs cb, objLookup sm.listeners k = some cbs → cb ∈ cbs → cbs.Nodup →
      ((sm.clear).2.filter (fun ev => ev.1 == k && ev.2.1 == cb)) = [(k, cb, none)]) ∧
    (∀ k cbs, objLookup sm.listeners k = some cbs →
      (sm.remove k).2 = cbs.map (fun c => (c, (none : Option V)))) := by
  refine ⟨rfl, ?_, ?_⟩
  · intro k cbs cb hl hcb hcbs
    have hmem : (k, cbs) ∈ sm.listeners := objLookup_mem _ _ _ hl
    have hfull : ∀ p ∈ sm.listeners, objLookup sm.listeners p.1 = some p.2 :=
      fun p hp => objLookup_of_nodup_mem _ _ _ hkeys hp
    exact clearLoop_filter_of_mem sm.listeners k cbs cb sm.listeners hkeys hfull hmem hcb hcbs
  · intro k cbs hl
    rw [StateManager.remove]
    show StateManager.publish _ k none = _
    rw [StateManager.publish]
    simp only [hl]

theorem stateManager_clear_remove_witness :
    ((StateManager.mk (V := Nat) [("a", 0)] [("a", [1, 2]), ("b", [3])]).clear).1.state = [] ∧
    (((StateManager.mk (V := Nat) [("a", 0)] [("a", [1, 2]), ("b", [3])]).clear).2.filter
        (fun ev => ev.1 == "a" && ev.2.1 == 1)) = [("a", 1, none)] ∧
    ((StateManager.mk (V := Nat) [("a", 0)] [("a", [1, 2]), ("b", [3])]).remove "b").2 =
      [3].map (fun c => (c, (none : Option Nat))) := by
  have h := stateManager_clear_remove
    (StateManager.mk (V := Nat) [("a", 0)] [("a", [1, 2]), ("b", [3])]) (by decide)
  exact ⟨h.1, h.2.1 "a" [1, 2] 1 (by decide) (by decide) (by decide),
         h.2.2 "b" [3] (by decide)⟩

/-! # C10: headers sent by request -/

theorem objMerge_lookup_of_none {κ α : Type} [DecidableEq κ] (b : List (κ × α)) :
    ∀ (a : List (κ × α)) (k : κ), objLookup b k = none →
      objLookup (objMerge a b) k = objLookup a k := by
  induction b with
  | nil => intro a k _; rfl
  | cons p rest ih =>
      intro a k h
      obtain ⟨k', v'⟩ := p
      by_cases hk : k' = k
      · subst hk; simp [objLookup] at h
      · rw [objLookup, if_neg hk] at h
        show objLookup (objMerge (objSet a k' v') rest) k = _
        rw [ih _ _ h, objLookup_objSet_ne _ _ _ _ hk]

theorem objMerge_lookup_of_nodup {κ α : Type} [DecidableEq κ] (b : List (κ × α)) :
    ∀ (a : List (κ × α)) (k : κ) (v : α), (b.map Prod.fst).Nodup →
      objLookup b k = some v → objLookup (objMerge a b) k = some v := by
  induction b with
  | nil => intro a k v _ h; simp [objLookup] at h
  | cons p rest ih =>
      intro a k v hnd h
      obtain ⟨k', v'⟩ := p
      simp only [List.map_cons, List.nodup_cons] at hnd
      by_cases hk : k' = k
      · subst hk
        rw [objLookup, if_pos rfl] at h
        obtain rfl : v' = v := Option.some.inj h
        have hrest : objLookup rest k' = none :=
          objLookup_eq_none_of_not_mem _ _ hnd.1
        show objLookup (objMerge (objSet a k' v') rest) k' = _
        rw [objMerge_lookup_of_none _ _ _ hrest, objLookup_objSet_self]
      · rw [objLookup, if_neg hk] at h
        exact ih (objSet a k' v') k v hnd.2 h

/-- C10: the headers `request` sends are `CONFIG.HEADERS` overridden by the
caller's `options.headers`, further overridden by the cookie-derived tokens:
a truthy `hms_auth_token` cookie forces `Authorization: Bearer <token>` and
a truthy `csrftoken` cookie forces `X-CSRFToken`, both winning over any
value the caller supplied for those headers; every other header equals the
plain spread of `CONFIG.HEADERS` and the options, where option entries win
over the defaults. -/
theorem request_header_overrides (docCookie : Str) (opts : List (String × String)) :
    (∀ t, getCookie docCookie AUTH_TOKEN_KEY.toList = some t → t ≠ [] →
      objLookup (buildRequestHeaders docCookie opts) "Authorization" =
        some ("Bearer " ++ String.mk t)) ∧
    (∀ c, getCookie docCookie "csrftoken".toList = some c → c ≠ [] →
      objLookup (buildRequestHeaders docCookie opts) "X-CSRFToken" = some (String.mk c)) ∧
    (∀ k, k ≠ "Authorization" → k ≠ "X-CSRFToken" →
      objLookup (buildRequestHeaders docCookie opts) k =
        objLookup (objMerge CONFIG_HEADERS opts) k) ∧
    ((opts.map Prod.fst).Nodup → ∀ k v, objLookup opts k = some v →
      objLookup (objMerge CONFIG_HEADERS opts) k = some v) ∧
    (∀ k, objLookup opts k = none →
      objLookup (objMerge CONFIG_HEADERS opts) k = objLookup CONFIG_HEADERS k) := by
  refine ⟨?_, ?_, ?_, ?_, ?_⟩
  · intro t ht htne
    cases hC : getCookie docCookie "csrftoken".toList with
    | none =>
        simp only [buildRequestHeaders, ht, hC]
        rw [if_pos htne]
        exact objLookup_objSet_self _ _ _
    | some c =>
        simp only [buildRequestHeaders, ht, hC]
        rw [if_pos htne]
        by_cases hc : c ≠ []
        · rw [if_pos hc,
            objLookup_objSet_ne _ _ _ _ (by decide : "X-CSRFToken" ≠ "Authorization")]
          exact objLookup_objSet_self _ _ _
        · rw [if_neg hc]
          exact objLookup_objSet_self _ _ _
  · intro c hc hcne
    simp only [buildRequestHeaders, hc]
    rw [if_pos hcne]
    exact objLookup_objSet_self _ _ _
  · intro k hka hkc
    have hA' : ∀ (m : List (String × String)) (v : String),
        objLookup (objSet m "Authorization" v) k = objLookup m k :=
      fun m v => objLookup_objSet_ne _ _ _ _ (Ne.symm hka)
    have hC' : ∀ (m : List (String × String)) (v : String),
        objLookup (objSet m "X-CSRFToken" v) k = objLookup m k :=
      fun m v => objLookup_objSet_ne _ _ _ _ (Ne.symm hkc)
    cases hA : getCookie docCookie AUTH_TOKEN_KEY.toList with
    | none =>
        cases hC : getCookie docCookie "csrftoken".toList with
        | none => simp only [buildRequestHeaders, hA, hC]
        | some c =>
            simp only [buildRequestHeaders, hA, hC]
            by_cases hc : c ≠ []
            · rw [if_pos hc, hC']
            · rw [if_neg hc]
    | some t =>
        cases hC : getCookie docCookie "csrftoken".toList with
        | none =>
            simp only [buildRequestHeaders, hA, hC]
            by_cases htr : t ≠ []
            · rw [if_pos htr, hA']
            · rw [if_neg htr]
        | some c =>
            simp only [buildRequestHeaders, hA, hC]
            by_cases htr : t ≠ [] <;> by_cases hc : c ≠ []
            · rw [if_pos htr, if_pos hc, hC', hA']
            · rw [if_pos htr, if_neg hc, hA']
            · rw [if_neg htr, if_pos hc, hC']
            · rw [if_neg htr, if_neg hc]
  · intro hnd k v h
    exact objMerge_lookup_of_nodup opts CONFIG_HEADERS k v hnd h
  · intro k h
    exact objMerge_lookup_of_none opts CONFIG_HEADERS k h

theorem request_header_overrides_witness :
    objLookup (buildRequestHeaders exDocCookie exOpts) "Authorization" =
      some ("Bearer " ++ String.mk "tok".toList) ∧
    objLookup (buildRequestHeaders exDocCookie exOpts) "X-CSRFToken" =
      some (String.mk "abc".toList) ∧
    objLookup (buildRequestHeaders exDocCookie exOpts) "Content-Type" =
      objLookup (objMerge CONFIG_HEADERS exOpts) "Content-Type" :=
  ⟨(request_header_overrides exDocCookie exOpts).1 "tok".toList (by decide) (by decide),
   (request_header_overrides exDocCookie exOpts).2.1 "abc".toList (by decide) (by decide),
   (request_header_overrides exDocCookie exOpts).2.2.1 "Content-Type"
     (by decide) (by decide)⟩

/-! # C5: cookie round-trip -/

theorem stripSpaces_of_head (s : Str) (h : s.head? ≠ some ' ') : stripSpaces s = s := by
  cases s with
  | nil => rfl
  | cons c rest =>
      have hc : c ≠ ' ' := by
        intro hceq
        exact h (by simp [hceq])
      simp [stripSpaces, List.dropWhile_cons, hc]

theorem splitOnSemi_ne_nil (s : Str) : splitOnSemi s ≠ [] := by
  cases s with
  | nil => simp [splitOnSemi]
  | cons c rest =>
      rw [splitOnSemi]
      by_cases h : c = ';'
      · simp [h]
      · rw [if_neg h]
        cases splitOnSemi rest <;> simp

theorem splitOnSemi_no_semi (a : Str) (h : ';' ∉ a) : splitOnSemi a = [a] := by
  induction a with
  | nil => rfl
  | cons c rest ih =>
      simp only [List.mem_cons] at h
      push_neg at h
      rw [splitOnSemi, if_neg (Ne.symm h.1), ih h.2]

theorem splitOnSemi_append (a b : Str) (h : ';' ∉ a) :
    splitOnSemi (a ++ ';' :: b) = a :: splitOnSemi b := by
  induction a with
  | nil => simp [splitOnSemi]
  | cons c rest ih =>
      simp only [List.mem_cons] at h
      push_neg at h
      rw [List.cons_append, splitOnSemi, if_neg (Ne.symm h.1), ih h.2]

theorem getCookieLoop_space (nameEQ s : Str) (rest : List Str) :
    getCookieLoop nameEQ ((' ' :: s) :: rest) = getCookieLoop nameEQ (s :: rest) := by
  simp [getCookieLoop, stripSpaces, List.dropWhile_cons]

/-- One step of the `getCookie` loop, with the `let` unfolded. -/
theorem getCookieLoop_cons (nameEQ seg : Str) (rest : List Str) :
    getCookieLoop nameEQ (seg :: rest) =
      if nameEQ.isPrefixOf (stripSpaces seg) = true then
        some ((stripSpaces seg).drop nameEQ.length)
      else getCookieLoop nameEQ rest := rfl

theorem drop_past_sep (n v : Str) : (n ++ '=' :: v).drop (n.length + 1) = v := by
  have h1 : n ++ '=' :: v = (n ++ ['=']) ++ v := by simp
  have h2 : n.length + 1 = (n ++ ['=']).length := by simp
  rw [h1, h2, List.drop_left]

theorem takeWhile_append_all (p : Char → Bool) (a : Str) :
    ∀ b, (∀ x ∈ a, p x = true) → (a ++ b).takeWhile p = a ++ b.takeWhile p := by
  induction a with
  | nil => intro b _; rfl
  | cons c rest ih =>
      intro b h
      have hc : p c = true := h c (List.mem_cons_self _ _)
      simp [List.takeWhile_cons, hc, ih b (fun x hx => h x (List.mem_cons_of_mem _ hx))]

theorem isPrefixOf_self_append (l t : Str) : l.isPrefixOf (l ++ t) = true := by
  induction l with
  | nil => simp [List.isPrefixOf]
  | cons c rest ih => simp [List.isPrefixOf, ih]

/-- A `name=` prefix query cannot match the rendered segment of a cookie
whose ('='-free) browser name differs from the query name's part before its
first '='. -/
theorem prefix_no_match (name : Str) :
    ∀ (n v : Str), '=' ∉ n → name.takeWhile (· ≠ '=') ≠ n →
      (name ++ ['=']).isPrefixOf (n ++ '=' :: v) = false := by
  induction name with
  | nil =>
      intro n v hn hne
      cases n with
      | nil => exact absurd rfl hne
      | cons b n' =>
          simp only [List.mem_cons] at hn
          push_neg at hn
          simp [List.isPrefixOf, beq_iff_eq, hn.1]
  | cons c name' ih =>
      intro n v hn hne
      by_cases hc : c = '='
      · subst hc
        cases n with
        | nil => exact absurd (by simp [List.takeWhile_cons]) hne
        | cons b n' =>
            simp only [List.mem_cons] at hn
            push_neg at hn
            simp [List.isPrefixOf, beq_iff_eq, hn.1]
      · cases n with
        | nil => simp [List.isPrefixOf, beq_iff_eq, hc]
        | cons b n' =>
            simp only [List.mem_cons] at hn
            push_neg at hn
            by_cases hcb : c = b
            · subst hcb
              have hne' : name'.takeWhile (· ≠ '=') ≠ n' := by
                intro h
                apply hne
                rw [List.takeWhile_cons, if_pos (by simp [hc]), h]
              simp [List.isPrefixOf, beq_iff_eq, ih n' v hn.2 hne']
            · simp [List.isPrefixOf, beq_iff_eq, hcb]

/-- Appending `=value` does not change the part of the name the browser
keeps (everything before the first '='). -/
theorem takeWhile_eq_append (name value : Str) :
    (name ++ '=' :: value).takeWhile (· ≠ '=') = name.takeWhile (· ≠ '=') := by
  induction name with
  | nil => simp [List.takeWhile_cons]
  | cons c rest ih =>
      by_cases hc : c = '='
      · subst hc; simp [List.takeWhile_cons]
      · rw [List.cons_append, List.takeWhile_cons, List.takeWhile_cons, ih]

theorem drop_length_takeWhile (p : Char → Bool) (l : Str) :
    l.drop (l.takeWhile p).length = l.dropWhile p := by
  induction l with
  | nil => rfl
  | cons c rest ih =>
      by_cases hc : p c = true
      · simp [List.takeWhile_cons, List.dropWhile_cons, hc, ih]
      · simp [List.takeWhile_cons, List.dropWhile_cons, hc]

/-- The written pair `name=value` always contains a '=': everything the
browser drops up to it starts with that separator. -/
theorem dropWhile_nameValue (name value : Str) :
    ∃ w, (name ++ '=' :: value).dropWhile (· ≠ '=') = '=' :: w := by
  induction name with
  | nil => exact ⟨value, by simp [List.dropWhile_cons]⟩
  | cons c rest ih =>
      by_cases hc : c = '='
      · subst hc
        exact ⟨rest ++ '=' :: value, by simp [List.dropWhile_cons]⟩
      · obtain ⟨w, hw⟩ := ih
        refine ⟨w, ?_⟩
        rw [List.cons_append, List.dropWhile_cons, if_pos (by simp [hc]), hw]

theorem objSet_ne_nil {κ α : Type} [DecidableEq κ] (m : List (κ × α)) (k : κ) (v : α) :
    objSet m k v ≠ [] := by
  cases m with
  | nil => simp [objSet]
  | cons p rest =>
      obtain ⟨k', v'⟩ := p
      by_cases h : k' = k <;> simp [objSet, h]

/-- A `name=value` write followed by attribute text is parsed by the
modelled browser into an update of the name's part before its first '=',
holding the rest of the pair as the stored value. -/
theorem cookieAssign_write (st : CookieStore) (name value tail : Str)
    (hnv : ';' ∉ name ++ '=' :: value) (htail : tail.head? = some ';') :
    ∃ w, name.takeWhile (· ≠ '=') ++ '=' :: w = name ++ '=' :: value ∧
      cookieAssign st (name ++ '=' :: value ++ tail) =
        objSet st (name.takeWhile (· ≠ '=')) w := by
  obtain ⟨tail', rfl⟩ : ∃ tail', tail = ';' :: tail' := by
    cases tail with
    | nil => simp at htail
    | cons c rest =>
        simp only [List.head?_cons, Option.some.injEq] at htail
        exact ⟨rest, by rw [htail]⟩
  have hassoc : name ++ '=' :: value ++ ';' :: tail' =
      (name ++ '=' :: value) ++ ';' :: tail' := by simp
  have hpair : (name ++ '=' :: value ++ ';' :: tail').takeWhile (· ≠ ';') =
      name ++ '=' :: value := by
    rw [hassoc, takeWhile_append_all _ _ _ (fun x hx => by
      simp only [decide_eq_true_eq]
      intro hxeq
      exact absurd (hxeq ▸ hx) hnv)]
    simp [List.takeWhile_cons]
  obtain ⟨w, hw⟩ := dropWhile_nameValue name value
  have hname : (name ++ '=' :: value).takeWhile (· ≠ '=') =
      name.takeWhile (· ≠ '=') := takeWhile_eq_append name value
  have hdrop : (name ++ '=' :: value).drop
      ((name ++ '=' :: value).takeWhile (· ≠ '=')).length = '=' :: w := by
    rw [drop_length_takeWhile, hw]
  refine ⟨w, ?_, ?_⟩
  · have hsplit := List.takeWhile_append_dropWhile (fun c => decide (c ≠ '='))
      (name ++ '=' :: value)
    rw [hw, hname] at hsplit
    exact hsplit
  · rw [cookieAssign]
    simp only [hpair]
    rw [hdrop]
    simp only [hname]

/-- `setCookie` updates the modelled jar at the browser-normalized name
(the part before the name's first '='), storing the rest of the written
pair; the stored entry re-renders as exactly `name=value`. -/
theorem setCookie_write (st : CookieStore) (name value : Str) (days : Nat) (dateStr : Str)
    (hn : ';' ∉ name) (hv : ';' ∉ value) :
    ∃ w, name.takeWhile (· ≠ '=') ++ '=' :: w = name ++ '=' :: value ∧
      setCookie st name value days dateStr = objSet st (name.takeWhile (· ≠ '=')) w := by
  have hnv : ';' ∉ name ++ '=' :: value := by
    simp only [List.mem_append, List.mem_cons]
    rintro (h | h | h)
    · exact hn h
    · exact absurd h.symm (by decide)
    · exact hv h
  rw [setCookie]
  by_cases hd : days ≠ 0
  · rw [if_pos hd]
    have hassoc : name ++ '=' :: value ++ ("; expires=".toList ++ dateStr) ++
        "; path=/".toList =
        name ++ '=' :: value ++ ((("; expires=".toList ++ dateStr) ++
          "; path=/".toList)) := by simp
    rw [hassoc]
    exact cookieAssign_write st name value _ hnv rfl
  · rw [if_neg hd]
    have hassoc : name ++ '=' :: value ++ ([] : Str) ++ "; path=/".toList =
        name ++ '=' :: value ++ "; path=/".toList := by simp
    rw [hassoc]
    exact cookieAssign_write st name value _ hnv rfl

/-- A segment that re-renders the written pair is matched by the
`getCookie` prefix test, which returns the written value. -/
theorem loop_head_match (name value a w : Str) (hsp : a.head? ≠ some ' ')
    (hdecomp : a ++ '=' :: w = name ++ '=' :: value) (tail : List Str) :
    getCookieLoop (name ++ ['=']) ((a ++ '=' :: w) :: tail) = some value := by
  have hstrip : stripSpaces (a ++ '=' :: w) = a ++ '=' :: w := by
    apply stripSpaces_of_head
    cases a with
    | nil => simp
    | cons c a' => simpa using hsp
  have hpre : (name ++ ['=']).isPrefixOf (name ++ '=' :: value) = true := by
    have h1 : name ++ '=' :: value = (name ++ ['=']) ++ value := by simp
    rw [h1]
    exact isPrefixOf_self_append _ _
  rw [getCookieLoop_cons, hstrip, hdecomp, if_pos hpre,
    show (name ++ ['=']).length = name.length + 1 by simp, drop_past_sep]

/-- Reading back through `getCookie` after the browser-level update:
the first matching segment is the updated entry, and it yields exactly the
written value — names containing '=' included. -/
theorem getCookie_render_objSet (name value a w : Str) (ha : goodName a) (hw : ';' ∉ w)
    (hdecomp : a ++ '=' :: w = name ++ '=' :: value)
    (hq : name.takeWhile (· ≠ '=') = a) :
    ∀ st : CookieStore, goodStore st →
      getCookie (renderStore (objSet st a w)) name = some value := by
  have hsegA : ';' ∉ a ++ '=' :: w := by
    simp only [List.mem_append, List.mem_cons]
    rintro (h | h | h)
    · exact ha.1 h
    · exact absurd h.symm (by decide)
    · exact hw h
  intro st
  induction st with
  | nil =>
      intro _
      rw [show objSet ([] : CookieStore) a w = [(a, w)] from rfl,
        show renderStore [(a, w)] = a ++ '=' :: w from rfl, getCookie,
        splitOnSemi_no_semi _ hsegA]
      exact loop_head_match name value a w ha.2.2 hdecomp []
  | cons p rest ih =>
      intro hst
      obtain ⟨n, v⟩ := p
      have hgood := hst (n, v) (List.mem_cons_self _ _)
      have hrest : goodStore rest := fun q hq' => hst q (List.mem_cons_of_mem _ hq')
      by_cases hna : n = a
      · rw [show objSet ((n, v) :: rest) a w = (a, w) :: rest by
          rw [objSet, if_pos hna]]
        cases rest with
        | nil =>
            rw [show renderStore [(a, w)] = a ++ '=' :: w from rfl, getCookie,
              splitOnSemi_no_semi _ hsegA]
            exact loop_head_match name value a w ha.2.2 hdecomp []
        | cons q rest' =>
            rw [show renderStore ((a, w) :: q :: rest') =
                (a ++ '=' :: w) ++ ';' :: (' ' :: renderStore (q :: rest')) by
              rw [renderStore]]
            rw [getCookie, splitOnSemi_append _ _ hsegA]
            exact loop_head_match name value a w ha.2.2 hdecomp _
      · rw [show objSet ((n, v) :: rest) a w = (n, v) :: objSet rest a w by
          rw [objSet, if_neg hna]]
        obtain ⟨q', tl, hq'⟩ : ∃ q' tl, objSet rest a w = q' :: tl := by
          cases h : objSet rest a w with
          | nil => exact absurd h (objSet_ne_nil rest a w)
          | cons q' tl => exact ⟨q', tl, rfl⟩
        have hsegn : ';' ∉ n ++ '=' :: v := by
          simp only [List.mem_append, List.mem_cons]
          rintro (h | h | h)
          · exact hgood.1.1 h
          · exact absurd h.symm (by decide)
          · exact hgood.2 h
        have hstripn : stripSpaces (n ++ '=' :: v) = n ++ '=' :: v := by
          apply stripSpaces_of_head
          cases n with
          | nil => simp
          | cons c n' => simpa using hgood.1.2.2
        rw [hq', show renderStore ((n, v) :: q' :: tl) =
            (n ++ '=' :: v) ++ ';' :: (' ' :: renderStore (q' :: tl)) by
          rw [renderStore]]
        rw [getCookie, splitOnSemi_append _ _ hsegn, getCookieLoop_cons, hstripn]
        have hpre : (name ++ ['=']).isPrefixOf (n ++ '=' :: v) = false :=
          prefix_no_match name n v hgood.1.2.1 (by rw [hq]; exact fun h => hna h.symm)
        rw [if_neg (by simp [hpre])]
        obtain ⟨s₀, ss, hsplit⟩ :
            ∃ s₀ ss, splitOnSemi (renderStore (q' :: tl)) = s₀ :: ss := by
          cases h : splitOnSemi (renderStore (q' :: tl)) with
          | nil => exact absurd h (splitOnSemi_ne_nil _)
          | cons s₀ ss => exact ⟨s₀, ss, rfl⟩
        have hspl : splitOnSemi (' ' :: renderStore (q' :: tl)) = (' ' :: s₀) :: ss := by
          rw [splitOnSemi, if_neg (by decide : ¬(' ' = ';')), hsplit]
        rw [hspl, getCookieLoop_space, ← hsplit]
        have hgc : getCookieLoop (name ++ ['=']) (splitOnSemi (renderStore (q' :: tl))) =
            getCookie (renderStore (q' :: tl)) name := rfl
        rw [hgc, ← hq']
        exact ih hrest

/-- C5 amended: for every well-formed cookie jar, every cookie name with no
';' and no leading space, and every value with no ';',
`setCookie(name, value, days)` followed by `getCookie(name)` returns
exactly the value that was set.  Names containing '=' are normalized by the
browser — the cookie is stored under the part before the first '=' — but
still round-trip; a ';' in the name or value truncates the write, so such
inputs are not preserved (the code does no encoding). -/
theorem cookie_roundtrip (st : CookieStore) (name value : Str) (days : Nat) (dateStr : Str)
    (hst : goodStore st) (hn1 : ';' ∉ name) (hn2 : name.head? ≠ some ' ')
    (hv : goodVal value) :
    getCookie (renderStore (setCookie st name value days dateStr)) name = some value := by
  obtain ⟨w, hdecomp, hset⟩ := setCookie_write st name value days dateStr hn1 hv
  have ha1 : ';' ∉ name.takeWhile (· ≠ '=') := fun h =>
    hn1 ((List.takeWhile_sublist _).subset h)
  have ha2 : '=' ∉ name.takeWhile (· ≠ '=') := fun h => by
    have hp := List.mem_takeWhile_imp h
    simp at hp
  have ha3 : (name.takeWhile (· ≠ '=')).head? ≠ some ' ' := by
    cases name with
    | nil => simp
    | cons c name' =>
        by_cases hc : c = '='
        · subst hc; simp [List.takeWhile_cons]
        · have hcs : c ≠ ' ' := by simpa using hn2
          simp [List.takeWhile_cons, hc, hcs]
  have hw : ';' ∉ w := by
    intro h
    have hmem : (';' : Char) ∈ name.takeWhile (· ≠ '=') ++ '=' :: w := by simp [h]
    rw [hdecomp] at hmem
    simp only [List.mem_append, List.mem_cons] at hmem
    rcases hmem with h' | h' | h'
    · exact hn1 h'
    · exact absurd h'.symm (by decide)
    · exact hv h'
  rw [hset]
  exact getCookie_render_objSet name value _ w ⟨ha1, ha2, ha3⟩ hw hdecomp rfl st hst

theorem cookie_roundtrip_witness :
    getCookie (renderStore (setCookie [("b".toList, "2".toList)] "a".toList "xy".toList
      7 "Mon, 01 Jan 2026 00:00:00 GMT".toList)) "a".toList = some "xy".toList ∧
    getCookie (renderStore (setCookie [("a".toList, "old".toList)] "a=b".toList "v".toList
      0 [])) "a=b".toList = some "v".toList :=
  ⟨cookie_roundtrip [("b".toList, "2".toList)] "a".toList "xy".toList 7
      "Mon, 01 Jan 2026 00:00:00 GMT".toList
      (by intro p hp; rcases List.mem_singleton.mp hp with rfl; exact ⟨⟨by decide, by decide,
        by decide⟩, by decide⟩)
      (by decide) (by decide) (by decide),
   cookie_roundtrip [("a".toList, "old".toList)] "a=b".toList "v".toList 0 []
      (by intro p hp; rcases List.mem_singleton.mp hp with rfl; exact ⟨⟨by decide, by decide,
        by decide⟩, by decide⟩)
      (by decide) (by decide) (by decide)⟩

/-- C5 is false as universally stated: a value containing ';' (here "x;y")
is truncated by the browser's cookie parsing, so the read-back value is "x",
not the value that was set.  The code URL-encodes nothing. -/
theorem cookie_roundtrip_cex :
    getCookie (renderStore (setCookie [] "a".toList "x;y".toList 1 "D".toList)) "a".toList =
      some "x".toList ∧
    some ("x".toList : Str) ≠ some ("x;y".toList : Str) := by
  refine ⟨by decide, by decide⟩

end HMS
